import Mathlib

/-!
Verification of the `projecttile` WMTS tile utilities.

The Python source (`src/projecttile/__init__.py`) is shallowly embedded here:
floating-point arithmetic is modelled by exact rational arithmetic (`ℚ`),
Python integers by `ℤ`/`ℕ`, generators by lists, and raised exceptions by
`Except`.  Definitions follow the source line by line; names are kept.
-/

namespace Projecttile

/-- Python runtime errors that the embedded functions can raise.
`tileArgParsingError` is the `TileArgParsingError` of the library itself;
`typeError` and `unboundLocalError` are Python builtins. -/
inductive PyErr where
  | tileArgParsingError
  | typeError
  | unboundLocalError
deriving DecidableEq, Repr

/-- Source type `Bbox = namedtuple("Bbox", ["left", "bottom", "right", "top"])`. -/
structure Bbox where
  left : ℚ
  bottom : ℚ
  right : ℚ
  top : ℚ
deriving DecidableEq, Repr

/-- Source type `XY = namedtuple("XY", ["x", "y"])`. -/
structure XY where
  x : ℚ
  y : ℚ
deriving DecidableEq, Repr

/-- Source type `WMTSTile = namedtuple("Tile", ["x", "y", "z", "provider_bounds"])`.
Tile indices are Python ints (`ℤ`); the zoom levels used by the claims are
non-negative, so `z : ℕ`. -/
structure WMTSTile where
  x : ℤ
  y : ℤ
  z : ℕ
  provider_bounds : Bbox
deriving DecidableEq, Repr

/-- Source function `ul(*tile)`: upper left corner of a tile, for WMTS.  Source:
`n = 2.0 ** zoom; tile_dx = (right - left) / n; tile_dy = (top - bottom) / n;`
`x = left + (xtile * tile_dx); y = top - (ytile * tile_dy)`.
The tile indices may be fractional, so they are `ℚ` here.  The function is
pure arithmetic: it performs no bounds checking and is total. -/
def ul (xtile ytile : ℚ) (zoom : ℕ) (provider_bounds : Bbox) : XY :=
  let n : ℚ := 2 ^ zoom
  let tile_dx := (provider_bounds.right - provider_bounds.left) / n
  let tile_dy := (provider_bounds.top - provider_bounds.bottom) / n
  ⟨provider_bounds.left + xtile * tile_dx, provider_bounds.top - ytile * tile_dy⟩

/-- Source function `truncate_xy(x, y, provider_bounds)`: clamp a point into the provider
bounds, each axis independently. -/
def truncate_xy (x y : ℚ) (provider_bounds : Bbox) : ℚ × ℚ :=
  let x1 := if x > provider_bounds.right then provider_bounds.right
    else if x < provider_bounds.left then provider_bounds.left else x
  let y1 := if y > provider_bounds.top then provider_bounds.top
    else if y < provider_bounds.bottom then provider_bounds.bottom else y
  (x1, y1)

/-- Source function `bounds(*tile)`: the bounding box of a tile.  Source:
`a = ul(xtile, ytile, zoom, provider_bounds);`
`b = ul(xtile + 1, ytile + 1, zoom, provider_bounds);`
`return Bbox(a[0], b[1], b[0], a[1])`.  Tile indices here are integers. -/
def bounds (xtile ytile : ℤ) (zoom : ℕ) (provider_bounds : Bbox) : Bbox :=
  let a := ul xtile ytile zoom provider_bounds
  let b := ul (xtile + 1) (ytile + 1) zoom provider_bounds
  ⟨a.x, b.y, b.x, a.y⟩

/-- Source function `_tile(x, y, zoom, provider_bounds, truncate=False)`: fractional tile
index of a point.  The `truncate` parameter is accepted and ignored, exactly
as in the source. -/
def _tile (x y : ℚ) (zoom : ℕ) (provider_bounds : Bbox) (truncate : Bool) :
    ℚ × ℚ × ℕ :=
  let n : ℚ := 2 ^ zoom
  let tile_dx := (provider_bounds.right - provider_bounds.left) / n
  let tile_dy := (provider_bounds.top - provider_bounds.bottom) / n
  ((x - provider_bounds.left) / tile_dx, (provider_bounds.top - y) / tile_dy, zoom)

/-- Source function `tile(x, y, zoom, provider_bounds, truncate=False)`: the tile containing
a point, by flooring the fractional index from `_tile`. -/
def tile (x y : ℚ) (zoom : ℕ) (provider_bounds : Bbox) (truncate : Bool) :
    WMTSTile :=
  let r := _tile x y zoom provider_bounds truncate
  ⟨⌊r.1⌋, ⌊r.2.1⌋, r.2.2, provider_bounds⟩

/-- Constant `epsilon = 1.0e-9` from the body of `tiles`. -/
def epsilon : ℚ := 1 / 1000000000

/-- Python `range(a, b)` over integers, as a list. -/
def pyRange (a b : ℤ) : List ℤ :=
  (List.range (b - a).toNat).map (fun k : ℕ => a + (k : ℤ))

/-- The body of the `for z in zooms` loop of `tiles`, after the query box has
been clamped against the provider bounds.  Source order is kept:
compute `(llx, lly)` from `(w, s)`; nudge `lly` by `epsilon` when
`lly % 1 < epsilon / 10`; compute `(urx, ury)` from `(e, n)`; nudge `urx`
likewise; clamp `llx` and `ury` at 0; floor all four; iterate
`i in range(llx, min(urx + 1, 2 ** z))` and nested
`j in range(ury, min(lly + 1, 2 ** z))`.  Python `v % 1` on a float is
`Int.fract` on `ℚ`. -/
def tilesForZoom (w s e n : ℚ) (z : ℕ) (provider_bounds : Bbox) :
    List WMTSTile :=
  let ll := _tile w s z provider_bounds false
  let lly := if Int.fract ll.2.1 < epsilon / 10 then ll.2.1 - epsilon else ll.2.1
  let ur := _tile e n z provider_bounds false
  let urx := if Int.fract ur.1 < epsilon / 10 then ur.1 - epsilon else ur.1
  let llx := if ll.1 < 0 then 0 else ll.1
  let ury := if ur.2.1 < 0 then 0 else ur.2.1
  (pyRange ⌊llx⌋ (min (⌊urx⌋ + 1) (2 ^ z))).flatMap fun i =>
    (pyRange ⌊ury⌋ (min (⌊lly⌋ + 1) (2 ^ z))).map fun j =>
      ⟨i, j, z, provider_bounds⟩

/-- Source function `tiles(west, south, east, north, zooms, provider_bounds, truncate=False)`,
materialised.  In the source, `bboxes` is assigned only in the `else` (non
truncate) branch; with `truncate=True` the generator reaches
`for w, s, e, n in bboxes` with `bboxes` unassigned and raises
`UnboundLocalError` (after calling `truncate_xy` on both corners, which has
no observable effect).  The non-truncate branch iterates the single box
`(west, south, east, north)`, clamps it against the provider bounds
(`w = max(left, w)` etc.) and runs the per-zoom loop.  A scalar `zooms`
argument is wrapped into a one-element list by the source; here `zooms` is
already a list. -/
def tiles (west south east north : ℚ) (zooms : List ℕ) (provider_bounds : Bbox)
    (truncate : Bool) : Except PyErr (List WMTSTile) :=
  if truncate then
    .error .unboundLocalError
  else
    let w := max provider_bounds.left west
    let s := max provider_bounds.bottom south
    let e := min provider_bounds.right east
    let n := min provider_bounds.top north
    .ok (zooms.flatMap fun z => tilesForZoom w s e n z provider_bounds)

/-- A Python value as far as `_parse_tile_arg` inspects one: either a
non-sequence scalar or a sequence of values.  (Namedtuples such as `Bbox`
are sequences of their fields.) -/
inductive PyVal where
  | scalar : ℚ → PyVal
  | seq : List PyVal → PyVal

/-- The unwrapping step of `_parse_tile_arg`: `if len(args) == 1: args = args[0]`.
When the single argument is not a sequence, the subsequent `len(args)` raises
`TypeError`. -/
def resolveTileArgs (args : List PyVal) : Except PyErr (List PyVal) :=
  if args.length = 1 then
    match args with
    | [.seq l] => .ok l
    | _ => .error .typeError
  else
    .ok args

/-- Source function `_parse_tile_arg(*args)`: after unwrapping a single sequence argument,
return `WMTSTile(*args)` when exactly 4 components remain, and raise
`TileArgParsingError` otherwise.  The namedtuple constructor does not
inspect its fields, so the result is the 4-component list itself. -/
def _parse_tile_arg (args : List PyVal) : Except PyErr (List PyVal) :=
  match resolveTileArgs args with
  | .error err => .error err
  | .ok comps =>
    if comps.length = 4 then .ok comps else .error .tileArgParsingError

/-- Row-major order on tiles of one zoom level: earlier rows (`y`) first,
then ascending column (`x`) within a row. -/
def rowMajorLt (t u : WMTSTile) : Prop :=
  t.y < u.y ∨ (t.y = u.y ∧ t.x < u.x)

/-- Column-major order on tiles of one zoom level: earlier columns (`x`)
first, then ascending row (`y`) within a column.  This is the order the
nested loops of `tiles` actually produce. -/
def colMajorLt (t u : WMTSTile) : Prop :=
  t.x < u.x ∨ (t.x = u.x ∧ t.y < u.y)

instance (t u : WMTSTile) : Decidable (rowMajorLt t u) := by
  unfold rowMajorLt; infer_instance

instance (t u : WMTSTile) : Decidable (colMajorLt t u) := by
  unfold colMajorLt; infer_instance

/-- The provider bounds `Bbox(-100, -100, 100, 100)` of the concrete
scenarios. -/
def pbC : Bbox := ⟨-100, -100, 100, 100⟩

/-! ### Basic lemmas -/

theorem pyRange_single (a : ℤ) : pyRange a (a + 1) = [a] := by
  have h : (a + 1 - a).toNat = 1 := by omega
  rw [pyRange, h]
  simp [List.range_succ]

theorem pyRange_sorted (a b : ℤ) : (pyRange a b).Pairwise (· < ·) := by
  unfold pyRange
  rw [List.pairwise_map]
  refine (List.pairwise_lt_range _).imp ?f
  intro k1 k2 h
  omega

theorem coordRoundtrip_x (pb : Bbox) (hlr : pb.left < pb.right) (z : ℕ) (a : ℚ) :
    (pb.left + a * ((pb.right - pb.left) / 2 ^ z) - pb.left) /
      ((pb.right - pb.left) / 2 ^ z) = a := by
  have hd : (pb.right - pb.left) / (2 : ℚ) ^ z ≠ 0 :=
    ne_of_gt (div_pos (by linarith) (by positivity))
  rw [add_sub_cancel_left, mul_div_cancel_right₀ _ hd]

theorem coordRoundtrip_y (pb : Bbox) (hbt : pb.bottom < pb.top) (z : ℕ) (b : ℚ) :
    (pb.top - (pb.top - b * ((pb.top - pb.bottom) / 2 ^ z))) /
      ((pb.top - pb.bottom) / 2 ^ z) = b := by
  have hd : (pb.top - pb.bottom) / (2 : ℚ) ^ z ≠ 0 :=
    ne_of_gt (div_pos (by linarith) (by positivity))
  rw [sub_sub_cancel, mul_div_cancel_right₀ _ hd]

/-- The epsilon nudge applied to a value that is exactly the integer `k + 1`
floors to `k`. -/
theorem floorNudge_intCast_add_one (k : ℤ) :
    ⌊if Int.fract ((k : ℚ) + 1) < epsilon / 10 then ((k : ℚ) + 1) - epsilon
      else ((k : ℚ) + 1)⌋ = k := by
  have hf : Int.fract ((k : ℚ) + 1) = 0 := by
    have h : ((k : ℚ) + 1) = ((k + 1 : ℤ) : ℚ) := by push_cast; ring
    rw [h, Int.fract_intCast]
  rw [hf, if_pos (by norm_num [epsilon])]
  rw [Int.floor_eq_iff]
  constructor
  · unfold epsilon; linarith
  · unfold epsilon; linarith

/-- The epsilon nudge applied to a value of `[epsilon / 10, 1]` floors
to `0`: the nudge fires precisely when the value is `1` or lies within
`epsilon / 10` of an integer from above, and `epsilon / 10 ≤ u ≤ 1` leaves
only `u = 1` in the latter class. -/
theorem floorNudge_eq_zero (u : ℚ) (h1 : epsilon / 10 ≤ u) (h2 : u ≤ 1) :
    ⌊if Int.fract u < epsilon / 10 then u - epsilon else u⌋ = 0 := by
  have heps : (0 : ℚ) < epsilon / 10 := by norm_num [epsilon]
  by_cases hu : u = 1
  · subst hu
    rw [Int.fract_one, if_pos heps, Int.floor_eq_iff]
    norm_num [epsilon]
  · have hlt : u < 1 := lt_of_le_of_ne h2 hu
    have hfl : ⌊u⌋ = 0 := by
      rw [Int.floor_eq_iff]
      exact ⟨by push_cast; linarith, by push_cast; linarith⟩
    have hfr : Int.fract u = u :=
      Int.fract_eq_self.mpr ⟨le_trans (le_of_lt heps) h1, hlt⟩
    rw [hfr, if_neg (not_lt.mpr h1), hfl]

/-- Flooring `if u < 0 then 0 else u` for `u ∈ [0, 1)` gives `0`. -/
theorem floorClamp_eq_zero (u : ℚ) (h1 : 0 ≤ u) (h2 : u < 1) :
    ⌊if u < 0 then (0 : ℚ) else u⌋ = 0 := by
  rw [if_neg (not_lt.mpr h1), Int.floor_eq_iff]
  exact ⟨by push_cast; linarith, by push_cast; linarith⟩

/-! ### C6: the `ul` formula -/

/-- C6: for every provider bounds, zoom and (possibly fractional) indices,
`ul` returns `(left + x * (right - left) / 2 ^ z, top - y * (top - bottom) / 2 ^ z)`.
The embedding is a total function: no bounds checking, no error. -/
theorem ul_formula (x y : ℚ) (z : ℕ) (pb : Bbox) :
    ul x y z pb =
      ⟨pb.left + x * (pb.right - pb.left) / 2 ^ z,
       pb.top - y * (pb.top - pb.bottom) / 2 ^ z⟩ := by
  simp [ul, mul_div_assoc]

/-! ### C5: adjacent tiles share edges exactly -/

/-- C5: the right edge of tile `(x, y)` equals the left edge of tile
`(x + 1, y)`, and the bottom edge of `(x, y)` equals the top edge of
`(x, y + 1)`: tiles tile the plane with no gap and no overlap. -/
theorem bounds_adjacent (pb : Bbox) (z : ℕ) (x y : ℤ) :
    (bounds x y z pb).right = (bounds (x + 1) y z pb).left ∧
    (bounds x y z pb).bottom = (bounds x (y + 1) z pb).top := by
  simp only [bounds, ul]
  constructor <;> push_cast <;> ring_nf

/-! ### C3: emission order of `tiles` -/

/-- The nested loop over a rectangular index grid is in strictly increasing
column-major order. -/
theorem pairwise_grid (a b c d : ℤ) (z : ℕ) (pb : Bbox) :
    ((pyRange a b).flatMap fun i => (pyRange c d).map fun j =>
      (⟨i, j, z, pb⟩ : WMTSTile)).Pairwise colMajorLt := by
  have hfm : ((pyRange a b).flatMap fun i => (pyRange c d).map fun j =>
      (⟨i, j, z, pb⟩ : WMTSTile)) =
      ((pyRange a b).map fun i => (pyRange c d).map fun j =>
        (⟨i, j, z, pb⟩ : WMTSTile)).flatten := rfl
  rw [hfm, List.pairwise_flatten]
  constructor
  · intro l hl
    obtain ⟨i, hi, rfl⟩ := List.mem_map.mp hl
    rw [List.pairwise_map]
    refine List.Pairwise.imp ?f (pyRange_sorted c d)
    intro j1 j2 hj
    exact Or.inr ⟨rfl, hj⟩
  · rw [List.pairwise_map]
    refine List.Pairwise.imp ?g (pyRange_sorted a b)
    intro i1 i2 hi t ht u hu
    obtain ⟨j1, hj1, rfl⟩ := List.mem_map.mp ht
    obtain ⟨j2, hj2, rfl⟩ := List.mem_map.mp hu
    exact Or.inl hi

/-- Counterexample to C3 as stated: on provider bounds
`Bbox(-100, -100, 100, 100)` at zoom 1, the full-extent query yields the
tiles in the order `(0,0), (0,1), (1,0), (1,1)` — the second and third are
not in row-major order (row-major requires `(1,0)` before `(0,1)`). -/
theorem tiles_zoom1_not_rowMajor :
    tiles (-100) (-100) 100 100 [1] pbC false =
      .ok [⟨0, 0, 1, pbC⟩, ⟨0, 1, 1, pbC⟩, ⟨1, 0, 1, pbC⟩, ⟨1, 1, 1, pbC⟩] ∧
    ¬ ([⟨0, 0, 1, pbC⟩, ⟨0, 1, 1, pbC⟩, ⟨1, 0, 1, pbC⟩, ⟨1, 1, 1, pbC⟩] :
        List WMTSTile).Pairwise rowMajorLt := by
  constructor
  · have h1 : tiles (-100) (-100) 100 100 [1] pbC false =
        .ok (tilesForZoom (-100) (-100) 100 100 1 pbC) := by
      norm_num [tiles, pbC]
    have h2 : tilesForZoom (-100) (-100) 100 100 1 pbC =
        [⟨0, 0, 1, pbC⟩, ⟨0, 1, 1, pbC⟩, ⟨1, 0, 1, pbC⟩, ⟨1, 1, 1, pbC⟩] := by
      norm_num [tilesForZoom, _tile, epsilon, pbC, Int.fract, pyRange,
        List.range_succ, List.flatMap_cons, List.flatMap_nil, Function.comp]
      decide
    rw [h1, h2]
  · intro h
    have h1 := (List.pairwise_cons.mp h).2
    have h2 := (List.pairwise_cons.mp h1).1 ⟨1, 0, 1, pbC⟩ (by simp)
    simp [rowMajorLt] at h2

/-- C3 amended: `tiles` emits, for each requested zoom in turn, the per-zoom
tile block, and within each zoom the tiles are in strictly increasing
column-major order (column `x` ascending, row `y` ascending within a
column). -/
theorem tiles_column_major_order :
    (∀ (west south east north : ℚ) (zooms : List ℕ) (pb : Bbox),
      tiles west south east north zooms pb false =
        .ok (zooms.flatMap fun z =>
          tilesForZoom (max pb.left west) (max pb.bottom south)
            (min pb.right east) (min pb.top north) z pb)) ∧
    (∀ (w s e n : ℚ) (z : ℕ) (pb : Bbox),
      (tilesForZoom w s e n z pb).Pairwise colMajorLt) := by
  constructor
  · intro _ _ _ _ _ _
    rfl
  · intro w s e n z pb
    unfold tilesForZoom
    exact pairwise_grid _ _ _ _ z pb

/-! ### C4: `tile` round-trips `ul` -/

/-- C4: for well-formed provider bounds, converting the upper-left
corner `ul(x, y, z, b)` back with `tile` at the same zoom returns the same
tile `(x, y, z, b)`. -/
theorem tile_ul_roundtrip (pb : Bbox) (hlr : pb.left < pb.right)
    (hbt : pb.bottom < pb.top) (z : ℕ) (x y : ℤ)
    (hx0 : 0 ≤ x) (hx : x < 2 ^ z) (hy0 : 0 ≤ y) (hy : y < 2 ^ z) :
    tile (ul x y z pb).x (ul x y z pb).y z pb false = ⟨x, y, z, pb⟩ := by
  simp only [tile, _tile, ul]
  rw [coordRoundtrip_x pb hlr z x, coordRoundtrip_y pb hbt z y]
  simp

/-- Witness for C4 at `pb = (-100, -100, 100, 100)`, `z = 1`, `(x, y) = (1, 0)`. -/
theorem tile_ul_roundtrip_witness :
    tile (ul 1 0 1 ⟨-100, -100, 100, 100⟩).x (ul 1 0 1 ⟨-100, -100, 100, 100⟩).y
      1 ⟨-100, -100, 100, 100⟩ false = ⟨1, 0, 1, ⟨-100, -100, 100, 100⟩⟩ :=
  tile_ul_roundtrip ⟨-100, -100, 100, 100⟩ (by norm_num) (by norm_num) 1 1 0
    (by norm_num) (by norm_num) (by norm_num) (by norm_num)

/-! ### C2: querying the exact bounds of a tile yields exactly that tile -/

/-- The per-zoom loop of `tiles`, applied to the exact corner coordinates of
tile `(x, y, z)`, emits exactly that one tile: the epsilon nudge pulls the
lower-left row index and upper-right column index back below the exact
integer boundary. -/
theorem tilesForZoom_exact (pb : Bbox) (hlr : pb.left < pb.right)
    (hbt : pb.bottom < pb.top) (z : ℕ) (x y : ℤ)
    (hx0 : 0 ≤ x) (hx : x + 1 ≤ 2 ^ z) (hy0 : 0 ≤ y) (hy : y + 1 ≤ 2 ^ z) :
    tilesForZoom (pb.left + (x : ℚ) * ((pb.right - pb.left) / 2 ^ z))
      (pb.top - ((y : ℚ) + 1) * ((pb.top - pb.bottom) / 2 ^ z))
      (pb.left + ((x : ℚ) + 1) * ((pb.right - pb.left) / 2 ^ z))
      (pb.top - (y : ℚ) * ((pb.top - pb.bottom) / 2 ^ z)) z pb
      = [⟨x, y, z, pb⟩] := by
  simp only [tilesForZoom, _tile]
  rw [coordRoundtrip_x pb hlr z (x : ℚ), coordRoundtrip_x pb hlr z ((x : ℚ) + 1),
    coordRoundtrip_y pb hbt z ((y : ℚ) + 1), coordRoundtrip_y pb hbt z (y : ℚ)]
  rw [floorNudge_intCast_add_one y, floorNudge_intCast_add_one x]
  rw [if_neg (not_lt.mpr (by exact_mod_cast hx0 : (0 : ℚ) ≤ (x : ℚ)))]
  rw [if_neg (not_lt.mpr (by exact_mod_cast hy0 : (0 : ℚ) ≤ (y : ℚ)))]
  rw [Int.floor_intCast, Int.floor_intCast]
  rw [min_eq_left hx, min_eq_left hy, pyRange_single, pyRange_single]
  simp

/-- C2: for a valid tile `t`, `tiles` applied to the four coordinates of
`bounds t` at the single zoom `t.z` yields exactly the one tile `t`. -/
theorem tiles_exact_bounds (pb : Bbox) (hlr : pb.left < pb.right)
    (hbt : pb.bottom < pb.top) (z : ℕ) (x y : ℤ)
    (hx0 : 0 ≤ x) (hx : x < 2 ^ z) (hy0 : 0 ≤ y) (hy : y < 2 ^ z) :
    tiles (bounds x y z pb).left (bounds x y z pb).bottom
      (bounds x y z pb).right (bounds x y z pb).top [z] pb false
      = .ok [⟨x, y, z, pb⟩] := by
  have hdx : (0 : ℚ) < (pb.right - pb.left) / 2 ^ z :=
    div_pos (by linarith) (by positivity)
  have hdy : (0 : ℚ) < (pb.top - pb.bottom) / 2 ^ z :=
    div_pos (by linarith) (by positivity)
  have hRL : (2 : ℚ) ^ z * ((pb.right - pb.left) / 2 ^ z) = pb.right - pb.left := by
    field_simp
  have hTB : (2 : ℚ) ^ z * ((pb.top - pb.bottom) / 2 ^ z) = pb.top - pb.bottom := by
    field_simp
  have hxq : (x : ℚ) + 1 ≤ 2 ^ z := by
    rw [show ((2 : ℚ) ^ z) = (((2 ^ z : ℤ) : ℚ)) from by norm_cast]
    exact_mod_cast (by omega : x + 1 ≤ 2 ^ z)
  have hyq : (y : ℚ) + 1 ≤ 2 ^ z := by
    rw [show ((2 : ℚ) ^ z) = (((2 ^ z : ℤ) : ℚ)) from by norm_cast]
    exact_mod_cast (by omega : y + 1 ≤ 2 ^ z)
  have hx0q : (0 : ℚ) ≤ (x : ℚ) := by exact_mod_cast hx0
  have hy0q : (0 : ℚ) ≤ (y : ℚ) := by exact_mod_cast hy0
  have hb : bounds x y z pb =
      ⟨pb.left + (x : ℚ) * ((pb.right - pb.left) / 2 ^ z),
       pb.top - ((y : ℚ) + 1) * ((pb.top - pb.bottom) / 2 ^ z),
       pb.left + ((x : ℚ) + 1) * ((pb.right - pb.left) / 2 ^ z),
       pb.top - (y : ℚ) * ((pb.top - pb.bottom) / 2 ^ z)⟩ := by
    simp only [bounds, ul, Bbox.mk.injEq]
  rw [hb]
  simp only [tiles, Bool.false_eq_true, if_false]
  have hw : max pb.left (pb.left + (x : ℚ) * ((pb.right - pb.left) / 2 ^ z)) =
      pb.left + (x : ℚ) * ((pb.right - pb.left) / 2 ^ z) :=
    max_eq_right (le_add_of_nonneg_right (mul_nonneg hx0q hdx.le))
  have hs : max pb.bottom (pb.top - ((y : ℚ) + 1) * ((pb.top - pb.bottom) / 2 ^ z)) =
      pb.top - ((y : ℚ) + 1) * ((pb.top - pb.bottom) / 2 ^ z) := by
    refine max_eq_right ?_
    have h1 : ((y : ℚ) + 1) * ((pb.top - pb.bottom) / 2 ^ z) ≤
        (2 : ℚ) ^ z * ((pb.top - pb.bottom) / 2 ^ z) :=
      mul_le_mul_of_nonneg_right hyq hdy.le
    linarith [hTB]
  have he : min pb.right (pb.left + ((x : ℚ) + 1) * ((pb.right - pb.left) / 2 ^ z)) =
      pb.left + ((x : ℚ) + 1) * ((pb.right - pb.left) / 2 ^ z) := by
    refine min_eq_right ?_
    have h1 : ((x : ℚ) + 1) * ((pb.right - pb.left) / 2 ^ z) ≤
        (2 : ℚ) ^ z * ((pb.right - pb.left) / 2 ^ z) :=
      mul_le_mul_of_nonneg_right hxq hdx.le
    linarith [hRL]
  have hn : min pb.top (pb.top - (y : ℚ) * ((pb.top - pb.bottom) / 2 ^ z)) =
      pb.top - (y : ℚ) * ((pb.top - pb.bottom) / 2 ^ z) :=
    min_eq_right (by linarith [mul_nonneg hy0q hdy.le])
  rw [hw, hs, he, hn]
  simp only [List.flatMap_cons, List.flatMap_nil, List.append_nil]
  rw [tilesForZoom_exact pb hlr hbt z x y hx0 (by omega) hy0 (by omega)]

/-- Witness for C2 at `pb = (-100, -100, 100, 100)`, `z = 1`, `(x, y) = (1, 0)`. -/
theorem tiles_exact_bounds_witness :
    tiles (bounds 1 0 1 ⟨-100, -100, 100, 100⟩).left
      (bounds 1 0 1 ⟨-100, -100, 100, 100⟩).bottom
      (bounds 1 0 1 ⟨-100, -100, 100, 100⟩).right
      (bounds 1 0 1 ⟨-100, -100, 100, 100⟩).top [1] ⟨-100, -100, 100, 100⟩ false
      = .ok [⟨1, 0, 1, ⟨-100, -100, 100, 100⟩⟩] :=
  tiles_exact_bounds ⟨-100, -100, 100, 100⟩ (by norm_num) (by norm_num) 1 1 0
    (by norm_num) (by norm_num) (by norm_num) (by norm_num)

/-! ### C8: zoom-0 queries on `Bbox(-100, -100, 100, 100)` -/

/-- Counterexample to C8 as stated: the non-degenerate query box
`(west, south, east, north) = (200, 0, 300, 1)` lies beyond the right
edge of the provider; at zoom 0 the clamped left corner floors to column 1 while the
clamped right corner is nudged back to column 0, so `tiles` yields no tile
at all rather than exactly the tile `(0, 0, 0)`. -/
theorem tiles_zoom0_disjoint_empty :
    (200 : ℚ) < 300 ∧ (0 : ℚ) < 1 ∧
    tiles 200 0 300 1 [0] pbC false = .ok [] ∧
    tiles 200 0 300 1 [0] pbC false ≠ .ok [⟨0, 0, 0, pbC⟩] := by
  have h1 : tiles 200 0 300 1 [0] pbC false =
      .ok (tilesForZoom 200 0 100 1 0 pbC) := by
    norm_num [tiles, pbC]
  have h2 : tilesForZoom 200 0 100 1 0 pbC = [] := by
    norm_num [tilesForZoom, _tile, epsilon, pbC, Int.fract, pyRange,
      List.range_succ, List.flatMap_cons, List.flatMap_nil, Function.comp]
  refine ⟨by norm_num, by norm_num, ?_, ?_⟩
  · rw [h1, h2]
  · rw [h1, h2]
    simp

/-- The per-zoom loop at zoom 0 on `Bbox(-100, -100, 100, 100)`: a clamped
query box that stays clear of the degenerate strips at the provider
edges (column strictly left of `right`, more than `2e-8` right of `left`,
and symmetrically in `y`) yields exactly the single tile `(0, 0, 0)`. -/
theorem tilesForZoom_pbC_zoom0 (w s e n : ℚ)
    (hw1 : -100 ≤ w) (hw2 : w < 100)
    (hs1 : -100 ≤ s) (hs2 : s ≤ 100 - 1 / 50000000)
    (he1 : -100 + 1 / 50000000 ≤ e) (he2 : e ≤ 100)
    (hn1 : -100 < n) (hn2 : n ≤ 100) :
    tilesForZoom w s e n 0 pbC = [⟨0, 0, 0, pbC⟩] := by
  simp only [tilesForZoom, _tile, pbC]
  rw [show ((100 : ℚ) - -100) / 2 ^ (0 : ℕ) = 200 from by norm_num]
  rw [show ((2 : ℤ) ^ (0 : ℕ)) = 1 from by norm_num]
  rw [floorClamp_eq_zero ((w - -100) / 200) (by linarith) (by linarith)]
  rw [floorNudge_eq_zero ((e - -100) / 200) (by unfold epsilon; linarith)
    (by linarith)]
  rw [floorClamp_eq_zero ((100 - n) / 200) (by linarith) (by linarith)]
  rw [floorNudge_eq_zero ((100 - s) / 200) (by unfold epsilon; linarith)
    (by linarith)]
  rw [show ((0 : ℤ) + 1) ⊓ 1 = 0 + 1 from by norm_num]
  rw [pyRange_single]
  simp

/-- C8 amended: for provider bounds `Bbox(-100, -100, 100, 100)` and zoom 0,
every non-degenerate query box that satisfies `west < 100`,
`east ≥ -100 + 2e-8`, `south ≤ 100 - 2e-8` and `north > -100` yields exactly
the one tile `(0, 0, 0)`.  (The original claim quantified over all
non-degenerate boxes; boxes at or beyond a provider edge — or within the
`2e-8` snapping margin of its left/bottom corner — yield no tile, see the
counterexample.) -/
theorem tiles_zoom0_single_tile (west south east north : ℚ)
    (hwe : west < east) (hsn : south < north)
    (hw : west < 100) (he : -100 + 1 / 50000000 ≤ east)
    (hs : south ≤ 100 - 1 / 50000000) (hn : -100 < north) :
    tiles west south east north [0] pbC false = .ok [⟨0, 0, 0, pbC⟩] := by
  simp only [tiles, Bool.false_eq_true, if_false, List.flatMap_cons,
    List.flatMap_nil, List.append_nil, pbC]
  exact congrArg Except.ok
    (tilesForZoom_pbC_zoom0 _ _ _ _
      (le_max_left _ _) (max_lt (by norm_num) hw)
      (le_max_left _ _) (max_le (by norm_num) hs)
      (le_min (by norm_num) he) (min_le_left _ _)
      (lt_min (by norm_num) hn) (min_le_left _ _))

/-- Witness for the amended C8 at the in-bounds box `(-50, -50, 50, 50)`. -/
theorem tiles_zoom0_single_tile_witness :
    tiles (-50) (-50) 50 50 [0] pbC false = .ok [⟨0, 0, 0, pbC⟩] :=
  tiles_zoom0_single_tile (-50) (-50) 50 50 (by norm_num) (by norm_num)
    (by norm_num) (by norm_num) (by norm_num) (by norm_num)

/-! ### C9: `tile` ignores its truncate flag -/

/-- C9: the result of `tile` does not depend on the `truncate` flag; the flag
is accepted at the interface but never used. -/
theorem tile_truncate_irrelevant (x y : ℚ) (z : ℕ) (pb : Bbox) :
    tile x y z pb true = tile x y z pb false := rfl

/-! ### C10: `bounds` preserves box well-formedness -/

/-- C10: for well-formed provider bounds, the box returned by `bounds` has
`left < right` and `bottom < top`. -/
theorem bounds_wellFormed (pb : Bbox) (z : ℕ) (x y : ℤ)
    (hlr : pb.left < pb.right) (hbt : pb.bottom < pb.top) :
    (bounds x y z pb).left < (bounds x y z pb).right ∧
    (bounds x y z pb).bottom < (bounds x y z pb).top := by
  have hn : (0 : ℚ) < 2 ^ z := by positivity
  have hdx : (0 : ℚ) < (pb.right - pb.left) / 2 ^ z := by
    apply div_pos <;> [linarith; exact hn]
  have hdy : (0 : ℚ) < (pb.top - pb.bottom) / 2 ^ z := by
    apply div_pos <;> [linarith; exact hn]
  simp only [bounds, ul]
  constructor <;> nlinarith

/-- Witness for C10 at `pb = (-100, -100, 100, 100)`, `z = 1`, `x = y = 0`. -/
theorem bounds_wellFormed_witness :
    (bounds 0 0 1 ⟨-100, -100, 100, 100⟩).left <
      (bounds 0 0 1 ⟨-100, -100, 100, 100⟩).right ∧
    (bounds 0 0 1 ⟨-100, -100, 100, 100⟩).bottom <
      (bounds 0 0 1 ⟨-100, -100, 100, 100⟩).top :=
  bounds_wellFormed ⟨-100, -100, 100, 100⟩ 1 0 0 (by norm_num) (by norm_num)

/-! ### C1: the truncate branch of `tiles` -/

/-- C1 fails on the code: in the source, `bboxes` is assigned only in the
`else` branch of `if truncate:`, so every call with `truncate=True` raises
`UnboundLocalError` at `for w, s, e, n in bboxes` instead of clamping the
corners and enumerating tiles.  Here: for every query box and zoom list,
the truncate branch returns the error. -/
theorem tiles_truncate_raises (west south east north : ℚ) (zooms : List ℕ)
    (pb : Bbox) :
    tiles west south east north zooms pb true = .error .unboundLocalError :=
  rfl

/-! ### C7: `_parse_tile_arg` argument-shape behaviour -/

/-- C7: whenever the supplied argument list resolves (one sequence argument
is unwrapped to its components; several arguments stand for themselves),
`_parse_tile_arg` returns the components as a tile exactly when there are
four of them, and raises `TileArgParsingError` for any other number. -/
theorem parse_tile_arg_shape (args comps : List PyVal)
    (h : resolveTileArgs args = .ok comps) :
    (_parse_tile_arg args = .ok comps ↔ comps.length = 4) ∧
    (_parse_tile_arg args = .error .tileArgParsingError ↔ comps.length ≠ 4) := by
  unfold _parse_tile_arg
  rw [h]
  by_cases h4 : comps.length = 4 <;> simp [h4]

/-- Witness for C7: four positional arguments resolve to themselves and
parse to a tile. -/
theorem parse_tile_arg_shape_witness :
    _parse_tile_arg [PyVal.scalar 1, PyVal.scalar 2, PyVal.scalar 3,
      PyVal.scalar 4] =
      .ok [PyVal.scalar 1, PyVal.scalar 2, PyVal.scalar 3, PyVal.scalar 4] :=
  (parse_tile_arg_shape [PyVal.scalar 1, PyVal.scalar 2, PyVal.scalar 3,
    PyVal.scalar 4] [PyVal.scalar 1, PyVal.scalar 2, PyVal.scalar 3,
    PyVal.scalar 4] rfl).1.mpr rfl

end Projecttile
